import Mathlib

/-!
# Verification of `seoparser` (src/seoparser/crawler.py)

A shallow embedding of the crawl engine in `SEOCrawler`:
the politeness controller (robots rules + host scoping), the page
analyzer (`parse_page`, `extract_links`), and the crawl loop
(`crawl`), together with theorems settling the specified properties.

Modelling conventions:
* Python `set`/`asyncio.Queue` become a duplicate-checked `List` and a
  FIFO `List`; the crawl loop is single-task sequential in the source,
  so the queue is deterministic.
* The network is an oracle (`World.fetch`); BeautifulSoup's parse of an
  HTML string is modelled by handing the oracle's body over already in
  parsed form (`Doc`), since `BeautifulSoup(html, 'html.parser')` is a
  total external parser.
* Counts (`max_depth`, `max_pages`, `autosave_interval`, HTTP status)
  are `Nat`; Python's `ZeroDivisionError` on `% 0` is modelled
  explicitly in the step function.
* Library functions from `urllib` (`urlparse().hostname`, `urljoin`,
  `RobotFileParser`) are modelled from their documented CPython
  behaviour on the inputs the crawler exercises.
-/

namespace SEOParser

/-- `PageResult` dataclass of crawler.py: one crawled URL's outcome.
Defaults mirror the dataclass defaults. -/
structure PageResult where
  url : String
  title : String := ""
  description : String := ""
  h1 : String := ""
  canonical : String := ""
  meta_robots : String := ""
  status : Nat := 0
  error : String := ""
deriving Repr, DecidableEq

/-! ## URL helpers (models of `urllib.parse`) -/

/-- Characters stripped by Python `str.strip()` with no argument. -/
def isPySpace (c : Char) : Bool :=
  c = ' ' || c = '\t' || c = '\n' || c = '\r' ||
    c = Char.ofNat 11 || c = Char.ofNat 12

/-- Models Python `str.strip()`: drop leading and trailing whitespace. -/
def pyStrip (s : String) : String :=
  String.mk (((s.toList.dropWhile isPySpace).reverse.dropWhile isPySpace).reverse)

/-- Models Python `str.lower()` on ASCII text. -/
def lowerString (s : String) : String :=
  String.mk (s.toList.map Char.toLower)

/-- Models Python `str.startswith(pre)`. -/
def strStartsWith (s pre : String) : Bool :=
  pre.toList.isPrefixOf s.toList

/-- Models Python `s.split(sep, 1)` for a one-character separator:
`some (before, after)` around the first occurrence, `none` when the
separator does not occur. -/
def splitFirst (sep : Char) : List Char → Option (List Char × List Char)
  | [] => none
  | c :: rest =>
    if c = sep then some ([], rest)
    else
      match splitFirst sep rest with
      | some (a, b) => some (c :: a, b)
      | none => none

/-- Characters allowed in a URL scheme after the leading letter
(`urllib.parse` accepts letters, digits, `+`, `-`, `.`). -/
def isSchemeChar (c : Char) : Bool :=
  c.isAlphanum || c = '+' || c = '-' || c = '.'

/-- A syntactically valid scheme: a letter followed by scheme chars. -/
def validScheme : List Char → Bool
  | c :: rest => c.isAlpha && rest.all isSchemeChar
  | [] => false

/-- Drop a leading `scheme:` from a character list when the prefix
before the first `:` is a syntactically valid scheme, as
`urllib.parse.urlsplit` does. -/
def dropScheme (cs : List Char) : List Char :=
  let pre := cs.takeWhile (fun c => c ≠ ':')
  if pre.length < cs.length && validScheme pre then
    cs.drop (pre.length + 1)
  else cs

/-- The scheme of a URL, lowercased, when present: models
`urllib.parse.urlparse(url).scheme` (empty scheme reported as `none`). -/
def pyScheme (url : String) : Option String :=
  let cs := url.toList
  let pre := cs.takeWhile (fun c => c ≠ ':')
  if pre.length < cs.length && validScheme pre then
    some (String.mk (pre.map Char.toLower))
  else none

/-- The part of a netloc after the last `@` (userinfo stripped), as in
`netloc.rpartition('@')`. -/
def afterLastAt (cs : List Char) : List Char :=
  ((cs.reverse.takeWhile (fun c => c ≠ '@')).reverse)

/-- Models `urllib.parse.urlparse(url).hostname`: the lowercased host
from the netloc, `none` when the URL has no netloc or an empty host.
(Bracketed IPv6 hosts are outside this model.) -/
def pyHostname (url : String) : Option String :=
  match dropScheme url.toList with
  | '/' :: '/' :: tail =>
    let netloc := tail.takeWhile (fun c => c ≠ '/' && c ≠ '?' && c ≠ '#')
    let hostport := afterLastAt netloc
    let host := hostport.takeWhile (fun c => c ≠ ':')
    if host.isEmpty then none else some (String.mk (host.map Char.toLower))
  | _ => none

/-- The netloc (authority) of a URL, empty when absent. -/
def pyNetloc (url : String) : String :=
  match dropScheme url.toList with
  | '/' :: '/' :: tail =>
    String.mk (tail.takeWhile (fun c => c ≠ '/' && c ≠ '?' && c ≠ '#'))
  | _ => ""

/-- Everything of the URL after scheme and netloc (path, params, query,
fragment), `"/"` when empty — the portion `RobotFileParser.can_fetch`
matches its rules against. -/
def robotsUrlPath (url : String) : String :=
  let cs :=
    match dropScheme url.toList with
    | '/' :: '/' :: tail => tail.dropWhile (fun c => c ≠ '/' && c ≠ '?' && c ≠ '#')
    | other => other
  if cs.isEmpty then "/" else String.mk cs

/-- The path component of a URL (after scheme and netloc, before
`?`/`#`), used for relative-reference resolution. -/
def pyPath (url : String) : String :=
  let cs :=
    match dropScheme url.toList with
    | '/' :: '/' :: tail => tail.dropWhile (fun c => c ≠ '/' && c ≠ '?' && c ≠ '#')
    | other => other
  String.mk (cs.takeWhile (fun c => c ≠ '?' && c ≠ '#'))

/-- The directory part of a path: everything up to and including the
last `/`, or `"/"` when the path has no `/`. -/
def dirOf (path : String) : String :=
  let cs := path.toList
  let upto := (cs.reverse.dropWhile (fun c => c ≠ '/')).reverse
  if upto.isEmpty then "/" else String.mk upto

/-- Models `urllib.parse.urljoin(base, url)` on the reference shapes the
crawler meets: absolute URLs (with `scheme://`) are returned unchanged,
protocol-relative `//…` inherits the base scheme, root-relative `/…`
replaces the base path, and other non-empty references are resolved
against the directory of the base path.  Dot-segment normalisation is
outside the model. -/
def urljoin (base url : String) : String :=
  if url = "" then base
  else if (pyScheme url).isSome ∧ (pyNetloc url) ≠ "" then url
  else
    let scheme := (pyScheme base).getD ""
    if url.toList.take 2 = ['/', '/'] then scheme ++ ":" ++ url
    else
      let origin := scheme ++ "://" ++ pyNetloc base
      if url.toList.take 1 = ['/'] then origin ++ url
      else origin ++ dirOf (pyPath base) ++ url

/-! ## Robots model (models of `urllib.robotparser.RobotFileParser`) -/

/-- A `RuleLine` of the robots parser: a path pattern and whether it
allows (`true`) or disallows (`false`). -/
structure RuleLine where
  path : String
  allowance : Bool
deriving Repr, DecidableEq

/-- `RuleLine.__init__`: an empty-path Disallow means allow-all. -/
def mkRuleLine (path : String) (allowance : Bool) : RuleLine :=
  if path = "" ∧ allowance = false then ⟨"", true⟩ else ⟨path, allowance⟩

/-- An `Entry` of the robots parser: user agents and their rule lines. -/
structure RobotsEntry where
  useragents : List String
  rulelines : List RuleLine
deriving Repr, DecidableEq

def emptyEntry : RobotsEntry := ⟨[], []⟩

/-- Post-`parse` state of a `RobotFileParser` (the crawler always calls
`parse`, so `disallow_all`/`allow_all`/`last_checked` are fixed). -/
structure RobotsRules where
  entries : List RobotsEntry
  default_entry : Option RobotsEntry
deriving Repr, DecidableEq

def emptyRules : RobotsRules := ⟨[], none⟩

/-- Whether `p` occurs as a contiguous sublist of `s`. -/
def listSubstr (p s : List Char) : Bool :=
  (List.range (s.length + 1)).any (fun i => p.isPrefixOf (s.drop i))

/-- `Entry.applies_to`: `*` matches everything, otherwise a lowercased
substring test against the agent name before any `/`. -/
def entryAppliesTo (e : RobotsEntry) (useragent : String) : Bool :=
  let ua := (String.mk (useragent.toList.takeWhile (fun c => c ≠ '/'))).toList
  e.useragents.any (fun agent =>
    agent = "*" || listSubstr (lowerString agent).toList (ua.map Char.toLower))

/-- `RuleLine.applies_to`: `*` or a literal prefix match on the path. -/
def ruleApplies (r : RuleLine) (path : String) : Bool :=
  r.path = "*" || strStartsWith path r.path

/-- `Entry.allowance`: first applicable rule line wins, default allow. -/
def entryAllowance (e : RobotsEntry) (path : String) : Bool :=
  match e.rulelines.find? (fun r => ruleApplies r path) with
  | some r => r.allowance
  | none => true

/-- `RobotFileParser.can_fetch` for a parsed ruleset: first entry whose
agents match decides, else the `*` default entry, else allow. -/
def can_fetch (r : RobotsRules) (useragent url : String) : Bool :=
  let path := robotsUrlPath url
  match r.entries.find? (fun e => entryAppliesTo e useragent) with
  | some e => entryAllowance e path
  | none =>
    match r.default_entry with
    | some e => entryAllowance e path
    | none => true

/-- `RobotFileParser._add_entry`: a `*` entry becomes the default entry
(first one wins), others are appended in order. -/
def addEntry (acc : RobotsRules) (e : RobotsEntry) : RobotsRules :=
  if e.useragents.contains "*" then
    match acc.default_entry with
    | none => { acc with default_entry := some e }
    | some _ => acc
  else { acc with entries := acc.entries ++ [e] }

/-- Intermediate state of `RobotFileParser.parse`'s line loop. -/
structure RobotsParseState where
  state : Nat
  entry : RobotsEntry
  acc : RobotsRules
deriving Repr, DecidableEq

/-- Text before the first `#` of a line (`line[:line.find('#')]`). -/
def stripComment (l : String) : String :=
  String.mk (l.toList.takeWhile (fun c => c ≠ '#'))

/-- The lowercased key of a robots line, when the line (after comment
stripping and stripping of whitespace) contains a `:`. -/
def robotsLineKey (l : String) : Option String :=
  let t := pyStrip (stripComment l)
  match splitFirst ':' t.toList with
  | none => none
  | some (key, _) => some (lowerString (pyStrip (String.mk key)))

/-- One iteration of `RobotFileParser.parse`'s loop over a raw line.
Comment lines and unrecognised keys are ignored; `sitemap` and other
extension keys the crawler never meets are treated as unrecognised. -/
def robotsParseLine (st : RobotsParseState) (line : String) : RobotsParseState :=
  if line = "" then
    if st.state = 1 then { st with entry := emptyEntry, state := 0 }
    else if st.state = 2 then
      ⟨0, emptyEntry, addEntry st.acc st.entry⟩
    else st
  else
    let t := pyStrip (stripComment line)
    match splitFirst ':' t.toList with
    | none => st
    | some (rawKey, rawValue) =>
      let key := lowerString (pyStrip (String.mk rawKey))
      let value := pyStrip (String.mk rawValue)
      if key = "user-agent" then
        let st := if st.state = 2 then
            ⟨st.state, emptyEntry, addEntry st.acc st.entry⟩
          else st
        { st with
          entry := { st.entry with useragents := st.entry.useragents ++ [value] }
          state := 1 }
      else if key = "disallow" then
        if st.state ≠ 0 then
          { st with
            entry := { st.entry with
                       rulelines := st.entry.rulelines ++ [mkRuleLine value false] }
            state := 2 }
        else st
      else if key = "allow" then
        if st.state ≠ 0 then
          { st with
            entry := { st.entry with
                       rulelines := st.entry.rulelines ++ [mkRuleLine value true] }
            state := 2 }
        else st
      else if key = "crawl-delay" ∨ key = "request-rate" then
        if st.state ≠ 0 then { st with state := 2 } else st
      else st

/-- `RobotFileParser.parse(lines)`: fold the line handler, then flush a
pending entry. -/
def parseRobots (lines : List String) : RobotsRules :=
  let st := lines.foldl robotsParseLine ⟨0, emptyEntry, emptyRules⟩
  if st.state = 2 then addEntry st.acc st.entry else st.acc

/-- A robots line whose key (before the first `:`, comments stripped)
is none of the directives `RobotFileParser.parse` reacts to. -/
def robotsLineUnrecognized (l : String) : Bool :=
  match robotsLineKey l with
  | none => true
  | some k =>
    !(k = "user-agent" || k = "disallow" || k = "allow" ||
      k = "crawl-delay" || k = "request-rate")

/-- Outcome of the GET for `/robots.txt` inside `load_robots`: a raised
exception, or a status with the response text split into lines. -/
inductive RobotsFetch where
  | err (msg : String)
  | ok (status : Nat) (lines : List String)
deriving Repr, DecidableEq

/-- `SEOCrawler.load_robots`: on a 200 response the body is parsed; on
any other status, or on any raised exception, a fresh parser is given
empty input (the allow-all fallback).  Total: every outcome yields a
ruleset, none aborts initialization. -/
def load_robots (res : RobotsFetch) : RobotsRules :=
  match res with
  | .err _ => parseRobots []
  | .ok status lines =>
    if status = 200 then parseRobots lines else parseRobots []

/-! ## HTML document model -/

/-- The parsed view of an HTML body, exactly the queries
`SEOCrawler.parse_page` / `extract_links` issue against BeautifulSoup:
* `title`: `soup.title` — presence of a `<title>`, and its `.string`
  (which BeautifulSoup reports as `None` for a title without a single
  string child);
* `descContent`: `<meta name="description">` and its `content` attr;
* `h1Text`: `get_text(strip=True)` of the first `<h1>`, when present;
* `canonicalHref`: `<link rel="canonical">` and its `href` attr;
* `robotsContent`: `<meta name="robots">` and its `content` attr;
* `anchors`: the `href` attributes of `<a href=…>` tags in document
  order.
BeautifulSoup's `html.parser` front end is total on arbitrary strings
(malformed input yields a best-effort tree, never an exception), so a
raw body is always representable as a `Doc`. -/
structure Doc where
  title : Option (Option String) := none
  descContent : Option (Option String) := none
  h1Text : Option String := none
  canonicalHref : Option (Option String) := none
  robotsContent : Option (Option String) := none
  anchors : List String := []
deriving Repr, DecidableEq

/-- `SEOCrawler.parse_page`: build the `PageResult` for a fetched page.
Each field falls back to `""` when its element or attribute is missing
(or, matching Python truthiness, empty). -/
def parse_page (url : String) (status : Nat) (soup : Doc) : PageResult :=
  let title :=
    match soup.title with
    | some (some s) => if s = "" then "" else pyStrip s
    | _ => ""
  let description :=
    match soup.descContent with
    | some (some s) => if s = "" then "" else pyStrip s
    | _ => ""
  let h1 :=
    match soup.h1Text with
    | some s => s
    | none => ""
  let canonical :=
    match soup.canonicalHref with
    | some (some s) => if s = "" then "" else pyStrip s
    | _ => ""
  let meta_robots :=
    match soup.robotsContent with
    | some (some s) => if s = "" then "" else pyStrip s
    | _ => ""
  ⟨url, title, description, h1, canonical, meta_robots, status, ""⟩

/-! ## Crawler configuration and state -/

/-- Construction-time configuration of `SEOCrawler`, plus the robots
ruleset the politeness controller holds after `initialize` (the crawl
loop never reloads it).  `base_url` is `self.base_url`, i.e. already
stripped of trailing `/` by `__init__`.  `has_progress_callback`
records whether a `progress_callback` was registered. -/
structure Config where
  base_url : String
  max_depth : Nat := 2
  max_pages : Nat := 100
  include_subdomains : Bool := false
  autosave_interval : Nat := 50
  has_progress_callback : Bool := false
  robots : RobotsRules := emptyRules
deriving Repr, DecidableEq

/-- The host-scope test of `SEOCrawler.allowed` (lines 92–95): fails
only when subdomain inclusion is off, the URL's hostname is truthy, and
it differs from the base hostname. -/
def hostScopeOk (cfg : Config) (url : String) : Bool :=
  if cfg.include_subdomains then true
  else
    match pyHostname url with
    | none => true
    | some h => decide (some h = pyHostname cfg.base_url)

/-- `SEOCrawler.allowed`: host-scope check (skipped when the URL has no
truthy hostname or subdomains are included), then the robots ruleset
for agent `*`. -/
def allowed (cfg : Config) (url : String) : Bool :=
  hostScopeOk cfg url && can_fetch cfg.robots "*" url

/-- `SEOCrawler.extract_links`: each anchor href resolved against the
base URL, kept when the resolved string starts with `"http"` and
`allowed` accepts it; document order, no dedup. -/
def extract_links (cfg : Config) (soup : Doc) (base_url : String) : List String :=
  soup.anchors.foldl
    (fun links a =>
      let href := urljoin base_url a
      if strStartsWith href "http" && allowed cfg href then links ++ [href]
      else links)
    []

/-- Outcome of `session.get(url)` as the crawl loop sees it: either a
raised transport exception (its message), or a status plus the
best-effort-decoded body, in parsed form. -/
inductive FetchOutcome where
  | err (msg : String)
  | ok (status : Nat) (body : Doc)
deriving Repr, DecidableEq

/-- The network oracle: what one GET of each URL returns during this
crawl (the loop fetches each URL at most once). -/
structure World where
  fetch : String → FetchOutcome

/-- Mutable crawl-session state: `results`, `errors`, the `visited`
set (as a duplicate-checked list), the FIFO frontier `to_visit`, and
observable event logs for the progress callback and autosave calls. -/
structure CrawlState where
  results : List PageResult := []
  errors : List PageResult := []
  visited : List String := []
  to_visit : List (String × Nat) := []
  progressEvents : List (Nat × Nat) := []
  autosaveEvents : List Nat := []
deriving Repr, DecidableEq

/-- State after `initialize()`: sitemap `<loc>` URLs queued at depth 0
(empty when sitemap loading failed), then the base URL at depth 0. -/
def initState (cfg : Config) (sitemapSeeds : List String) : CrawlState :=
  { to_visit := sitemapSeeds.map (fun u => (u, 0)) ++ [(cfg.base_url, 0)] }

/-- The `while` condition of `SEOCrawler.crawl`. -/
def crawlGuard (cfg : Config) (s : CrawlState) : Bool :=
  !s.to_visit.isEmpty && s.results.length < cfg.max_pages

/-- Result of one loop iteration: the new state, or the state at the
point where an uncaught exception left the loop. -/
inductive StepResult where
  | ok (s : CrawlState)
  | crash (s : CrawlState) (msg : String)
deriving Repr, DecidableEq

/-- The state carried by a step result. -/
def StepResult.state : StepResult → CrawlState
  | .ok s => s
  | .crash s _ => s

/-- The message of Python's modulo-by-zero exception. -/
def zeroDivMsg : String := "ZeroDivisionError: integer division or modulo by zero"

/-- Lines 117–128 of crawler.py, the tail of the loop body once a
response came back: build the `PageResult`, record it in `errors` when
the status is not 200, append it to `results`, fire the progress
callback, check the autosave threshold (Python's
`len(results) % autosave_interval` raises `ZeroDivisionError` when the
interval is 0, modelled as `.crash`), and on a 200 response below the
depth bound enqueue the extracted links not yet visited at depth+1. -/
def recordPage (cfg : Config) (url : String) (depth status : Nat) (text : Doc)
    (s : CrawlState) : StepResult :=
  let page := parse_page url status text
  let s := if status ≠ 200 then { s with errors := s.errors ++ [page] } else s
  let s := { s with results := s.results ++ [page] }
  let s :=
    if cfg.has_progress_callback then
      { s with progressEvents :=
          s.progressEvents ++ [(s.results.length, cfg.max_pages)] }
    else s
  if cfg.autosave_interval = 0 then .crash s zeroDivMsg
  else
    let s :=
      if s.results.length % cfg.autosave_interval = 0 then
        { s with autosaveEvents := s.autosaveEvents ++ [s.results.length] }
      else s
    if status = 200 && depth < cfg.max_depth then
      let fresh := (extract_links cfg text url).filter
        (fun link => !s.visited.contains link)
      .ok { s with to_visit := s.to_visit ++ fresh.map (fun link => (link, depth + 1)) }
    else .ok s

/-- One iteration of the `while` loop in `SEOCrawler.crawl` (the loop
body, assuming the guard held): pop, dedup/depth check, politeness
check, mark visited, fetch; a transport exception records the URL in
`errors` only and continues, a response is handled by `recordPage`. -/
def crawlStep (cfg : Config) (w : World) (s : CrawlState) : StepResult :=
  match s.to_visit with
  | [] => .ok s
  | (url, depth) :: rest =>
    let s := { s with to_visit := rest }
    if s.visited.contains url || depth > cfg.max_depth then .ok s
    else if !allowed cfg url then .ok s
    else
      let s := { s with visited := url :: s.visited }
      match w.fetch url with
      | .err msg =>
        .ok { s with errors := s.errors ++ [{ url := url, status := 0, error := msg }] }
      | .ok status text => recordPage cfg url depth status text s

/-- `SEOCrawler.crawl`'s loop, fuel-indexed: runs `crawlStep` while the
guard holds and fuel remains; a crash propagates.  `runCrawl fuel`
applied to the initial state is the session state after at most `fuel`
iterations, so properties proved for every `fuel` hold at every point
of the run and after termination. -/
def runCrawl (cfg : Config) (w : World) : Nat → CrawlState → StepResult
  | 0, s => .ok s
  | fuel + 1, s =>
    if crawlGuard cfg s then
      match crawlStep cfg w s with
      | .ok s' => runCrawl cfg w fuel s'
      | .crash s' msg => .crash s' msg
    else .ok s

/-! ## Helper lemmas about one loop iteration -/

theorem contains_false_iff {l : List String} {a : String} :
    l.contains a = false ↔ a ∉ l := by
  rw [← Bool.not_eq_true]
  simp

theorem recordPage_results (cfg : Config) (url : String) (depth status : Nat)
    (text : Doc) (s : CrawlState) :
    (recordPage cfg url depth status text s).state.results
      = s.results ++ [parse_page url status text] := by
  simp only [recordPage]
  split_ifs <;> simp [StepResult.state]

theorem recordPage_visited (cfg : Config) (url : String) (depth status : Nat)
    (text : Doc) (s : CrawlState) :
    (recordPage cfg url depth status text s).state.visited = s.visited := by
  simp only [recordPage]
  split_ifs <;> simp [StepResult.state]

theorem recordPage_errors (cfg : Config) (url : String) (depth status : Nat)
    (text : Doc) (s : CrawlState) :
    (recordPage cfg url depth status text s).state.errors
      = s.errors ++ (if status ≠ 200 then [parse_page url status text] else []) := by
  simp only [recordPage]
  split_ifs <;> simp_all [StepResult.state]

theorem recordPage_progressEvents (cfg : Config) (url : String) (depth status : Nat)
    (text : Doc) (s : CrawlState) :
    (recordPage cfg url depth status text s).state.progressEvents
      = if cfg.has_progress_callback then
          s.progressEvents ++ [(s.results.length + 1, cfg.max_pages)]
        else s.progressEvents := by
  simp only [recordPage]
  split_ifs <;> simp_all [StepResult.state]

theorem recordPage_to_visit (cfg : Config) (url : String) (depth status : Nat)
    (text : Doc) (s : CrawlState) :
    ∃ new, (recordPage cfg url depth status text s).state.to_visit = s.to_visit ++ new ∧
      (∀ p ∈ new, p.2 = depth + 1 ∧ s.visited.contains p.1 = false ∧
        p.1 ∈ extract_links cfg text url) ∧
      (new ≠ [] → status = 200 ∧ depth < cfg.max_depth) := by
  by_cases h0 : cfg.autosave_interval = 0
  · refine ⟨[], ?_, by simp, by simp⟩
    simp only [recordPage, h0]
    split_ifs <;> simp [StepResult.state]
  · by_cases hs2 : status = 200
    · by_cases hdm : depth < cfg.max_depth
      · refine ⟨((extract_links cfg text url).filter
            (fun link => !s.visited.contains link)).map (fun link => (link, depth + 1)),
          ?_, ?_, fun _ => ⟨hs2, hdm⟩⟩
        · simp only [recordPage]
          split_ifs <;> simp_all [StepResult.state]
        · intro p hp
          simp only [List.mem_map, List.mem_filter] at hp
          obtain ⟨link, ⟨hl, hv⟩, rfl⟩ := hp
          simp only [Bool.not_eq_true'] at hv
          exact ⟨rfl, hv, hl⟩
      · refine ⟨[], ?_, by simp, by simp⟩
        simp only [recordPage]
        split_ifs <;> simp_all [StepResult.state] <;> (exfalso; omega)
    · refine ⟨[], ?_, by simp, by simp⟩
      simp only [recordPage]
      split_ifs <;> simp_all [StepResult.state]

theorem recordPage_crash_zero (cfg : Config) (url : String) (depth status : Nat)
    (text : Doc) (s : CrawlState) (h0 : cfg.autosave_interval = 0) :
    ∃ s', recordPage cfg url depth status text s = .crash s' zeroDivMsg ∧
      s'.results = s.results ++ [parse_page url status text] := by
  simp only [recordPage, h0]
  split_ifs <;> exact ⟨_, rfl, by simp⟩

theorem recordPage_ok_nonzero (cfg : Config) (url : String) (depth status : Nat)
    (text : Doc) (s : CrawlState) (h0 : cfg.autosave_interval ≠ 0) :
    ∃ s', recordPage cfg url depth status text s = .ok s' := by
  simp only [recordPage]
  split_ifs <;> first | exact ⟨_, rfl⟩ | exact absurd (by assumption) h0

theorem crawlStep_nil (cfg : Config) (w : World) (s : CrawlState)
    (hq : s.to_visit = []) : crawlStep cfg w s = .ok s := by
  simp only [crawlStep, hq]

theorem crawlStep_skip_visited_or_depth (cfg : Config) (w : World) (s : CrawlState)
    (url : String) (depth : Nat) (rest : List (String × Nat))
    (hq : s.to_visit = (url, depth) :: rest)
    (h : s.visited.contains url = true ∨ depth > cfg.max_depth) :
    crawlStep cfg w s = .ok { s with to_visit := rest } := by
  have hc : (s.visited.contains url || decide (depth > cfg.max_depth)) = true := by
    simp only [Bool.or_eq_true, decide_eq_true_eq]
    rcases h with h | h
    · exact Or.inl h
    · exact Or.inr h
  simp only [crawlStep, hq]
  rw [if_pos hc]

theorem crawlStep_skip_disallowed (cfg : Config) (w : World) (s : CrawlState)
    (url : String) (depth : Nat) (rest : List (String × Nat))
    (hq : s.to_visit = (url, depth) :: rest)
    (hv : s.visited.contains url = false) (hd : depth ≤ cfg.max_depth)
    (ha : allowed cfg url = false) :
    crawlStep cfg w s = .ok { s with to_visit := rest } := by
  have hc : ¬ ((s.visited.contains url || decide (depth > cfg.max_depth)) = true) := by
    simp only [hv, Bool.false_or, decide_eq_true_eq]
    omega
  have hcA : ((!allowed cfg url) = true) := by simp [ha]
  simp only [crawlStep, hq]
  rw [if_neg hc, if_pos hcA]

theorem crawlStep_fetch_err (cfg : Config) (w : World) (s : CrawlState)
    (url : String) (depth : Nat) (rest : List (String × Nat)) (msg : String)
    (hq : s.to_visit = (url, depth) :: rest)
    (hv : s.visited.contains url = false) (hd : depth ≤ cfg.max_depth)
    (ha : allowed cfg url = true) (hf : w.fetch url = .err msg) :
    crawlStep cfg w s = .ok
      { s with
          to_visit := rest
          visited := url :: s.visited
          errors := s.errors ++ [{ url := url, status := 0, error := msg }] } := by
  have hc : ¬ ((s.visited.contains url || decide (depth > cfg.max_depth)) = true) := by
    simp only [hv, Bool.false_or, decide_eq_true_eq]
    omega
  have hcA : ¬ ((!allowed cfg url) = true) := by simp [ha]
  simp only [crawlStep, hq]
  rw [if_neg hc, if_neg hcA, hf]

theorem crawlStep_fetch_ok (cfg : Config) (w : World) (s : CrawlState)
    (url : String) (depth : Nat) (rest : List (String × Nat)) (status : Nat) (text : Doc)
    (hq : s.to_visit = (url, depth) :: rest)
    (hv : s.visited.contains url = false) (hd : depth ≤ cfg.max_depth)
    (ha : allowed cfg url = true) (hf : w.fetch url = .ok status text) :
    crawlStep cfg w s =
      recordPage cfg url depth status text
        { s with to_visit := rest, visited := url :: s.visited } := by
  have hc : ¬ ((s.visited.contains url || decide (depth > cfg.max_depth)) = true) := by
    simp only [hv, Bool.false_or, decide_eq_true_eq]
    omega
  have hcA : ¬ ((!allowed cfg url) = true) := by simp [ha]
  simp only [crawlStep, hq]
  rw [if_neg hc, if_neg hcA, hf]

/-- Everything one loop iteration can do to the state, in one place:
the queue loses its head and gains only freshly-discovered links, at
depth parent+1 and only below the depth bound; at most one URL joins
`visited`, and only if it was not yet visited; at most one `PageResult`
joins `results`, and its URL is the newly visited one. -/
theorem crawlStep_spec (cfg : Config) (w : World) (s : CrawlState) :
    ∃ (newv : List String) (newq : List (String × Nat)),
      (crawlStep cfg w s).state.visited = newv ++ s.visited ∧
      (crawlStep cfg w s).state.to_visit = s.to_visit.tail ++ newq ∧
      newv.length ≤ 1 ∧
      (∀ u ∈ newv, s.visited.contains u = false) ∧
      ((crawlStep cfg w s).state.results = s.results ∨
        ∃ page, (crawlStep cfg w s).state.results = s.results ++ [page] ∧
          page.url ∈ newv) ∧
      (∀ p ∈ newq, (crawlStep cfg w s).state.visited.contains p.1 = false ∧
        ∃ u d r, s.to_visit = (u, d) :: r ∧ p.2 = d + 1 ∧ d < cfg.max_depth) := by
  rcases hq : s.to_visit with _ | ⟨⟨url, depth⟩, rest⟩
  · rw [crawlStep_nil cfg w s hq]
    exact ⟨[], [], rfl, by simp [hq, StepResult.state], by simp, by simp, Or.inl rfl, by simp⟩
  · by_cases hv : s.visited.contains url = true
    · rw [crawlStep_skip_visited_or_depth cfg w s url depth rest hq (Or.inl hv)]
      exact ⟨[], [], rfl, by simp [hq, StepResult.state], by simp, by simp, Or.inl rfl, by simp⟩
    · have hv' : s.visited.contains url = false := by simpa using hv
      by_cases hdd : depth > cfg.max_depth
      · rw [crawlStep_skip_visited_or_depth cfg w s url depth rest hq (Or.inr hdd)]
        exact ⟨[], [], rfl, by simp [hq, StepResult.state], by simp, by simp, Or.inl rfl, by simp⟩
      · have hd : depth ≤ cfg.max_depth := by omega
        by_cases ha : allowed cfg url = true
        · rcases hf : w.fetch url with msg | ⟨status, text⟩
          · rw [crawlStep_fetch_err cfg w s url depth rest msg hq hv' hd ha hf]
            refine ⟨[url], [], rfl, by simp [hq, StepResult.state], by simp, ?_, Or.inl rfl, by simp⟩
            intro u hu
            simp only [List.mem_singleton] at hu
            subst hu
            exact hv'
          · rw [crawlStep_fetch_ok cfg w s url depth rest status text hq hv' hd ha hf]
            obtain ⟨new, hnew, hmem, hcond⟩ :=
              recordPage_to_visit cfg url depth status text
                { s with to_visit := rest, visited := url :: s.visited }
            refine ⟨[url], new, ?_, ?_, by simp, ?_, ?_, ?_⟩
            · simp [recordPage_visited]
            · rw [hnew]; simp [hq]
            · intro u hu
              simp only [List.mem_singleton] at hu
              subst hu
              exact hv'
            · refine Or.inr ⟨parse_page url status text, ?_, by simp [parse_page]⟩
              simp [recordPage_results]
            · intro p hp
              obtain ⟨hdep, hvis, _⟩ := hmem p hp
              have hc := hcond (by rintro rfl; exact absurd hp (List.not_mem_nil p))
              refine ⟨?_, url, depth, rest, rfl, hdep, hc.2⟩
              rw [recordPage_visited]
              exact hvis
        · have ha' : allowed cfg url = false := by simpa using ha
          rw [crawlStep_skip_disallowed cfg w s url depth rest hq hv' hd ha']
          exact ⟨[], [], rfl, by simp [hq, StepResult.state], by simp, by simp, Or.inl rfl, by simp⟩

/-- Invariant preservation lifted from one step to the whole fuelled
run (crashes included: the invariant holds at the crash state too). -/
theorem runCrawl_inv (cfg : Config) (w : World) (P : CrawlState → Prop)
    (hstep : ∀ s, P s → crawlGuard cfg s = true → P (crawlStep cfg w s).state) :
    ∀ fuel s, P s → P (runCrawl cfg w fuel s).state := by
  intro fuel
  induction fuel with
  | zero => intro s h; exact h
  | succ n ih =>
    intro s h
    rw [runCrawl]
    by_cases hg : crawlGuard cfg s = true
    · rw [if_pos hg]
      have h' := hstep s h hg
      rcases hs : crawlStep cfg w s with s' | ⟨s', m⟩
      · rw [hs] at h'
        exact ih s' h'
      · rw [hs] at h'
        exact h'
    · rw [if_neg hg]
      exact h

/-! ## Claim theorems -/

/-- C3: for every crawl, `len(results) ≤ maxPages` holds at every
point during `run()` (the state after any number of loop iterations,
any fuel) and after it terminates; and once the bound is reached the
loop admits no further fetch attempt — the run returns the state
unchanged even when frontier entries remain queued. -/
theorem crawl_results_le_max_pages (cfg : Config) (w : World) (s : CrawlState) (fuel : Nat)
    (hinv : s.results.length ≤ cfg.max_pages) :
    (runCrawl cfg w fuel s).state.results.length ≤ cfg.max_pages ∧
    (s.results.length = cfg.max_pages → runCrawl cfg w fuel s = .ok s) := by
  constructor
  · refine runCrawl_inv cfg w (fun t => t.results.length ≤ cfg.max_pages) ?_ fuel s hinv
    intro t ht hg
    obtain ⟨newv, newq, _, _, _, _, hres, _⟩ := crawlStep_spec cfg w t
    have hlt : t.results.length < cfg.max_pages := by
      simp only [crawlGuard, Bool.and_eq_true, decide_eq_true_eq] at hg
      exact hg.2
    rcases hres with h | ⟨page, h, _⟩
    · rw [h]; omega
    · rw [h]; simp; omega
  · intro hfull
    have hg : ¬ (crawlGuard cfg s = true) := by
      simp only [crawlGuard, Bool.and_eq_true, decide_eq_true_eq, not_and]
      intro _
      omega
    cases fuel with
    | zero => rfl
    | succ n => rw [runCrawl, if_neg hg]

/-- Closed instance of the page-cap theorem. -/
theorem crawl_results_le_max_pages_witness :
    (runCrawl { base_url := "http://e.com" : Config} ⟨fun _ => .ok 200 {}⟩ 3
        (initState { base_url := "http://e.com" : Config} [])).state.results.length ≤
      ({ base_url := "http://e.com" : Config}).max_pages :=
  (crawl_results_le_max_pages { base_url := "http://e.com" : Config} ⟨fun _ => .ok 200 {}⟩
    (initState { base_url := "http://e.com" : Config} []) 3 (by decide)).1

/-- C4: dedup — starting from the initialized state, `visited`
never holds a URL twice and each `results` URL is unique and belongs to
`visited` (so each URL is fetched at most once); moreover a step only
enqueues links that are not in `visited` at push time, so a visited URL
is never re-enqueued. -/
theorem crawl_dedup (cfg : Config) (w : World) (seeds : List String) (fuel : Nat) :
    ((runCrawl cfg w fuel (initState cfg seeds)).state.visited.Nodup ∧
     ((runCrawl cfg w fuel (initState cfg seeds)).state.results.map PageResult.url).Nodup ∧
     ∀ r ∈ (runCrawl cfg w fuel (initState cfg seeds)).state.results,
       r.url ∈ (runCrawl cfg w fuel (initState cfg seeds)).state.visited) ∧
    (∀ t : CrawlState, ∃ newq,
       (crawlStep cfg w t).state.to_visit = t.to_visit.tail ++ newq ∧
       ∀ p ∈ newq, p.1 ∉ (crawlStep cfg w t).state.visited) := by
  constructor
  · refine runCrawl_inv cfg w
      (fun t => t.visited.Nodup ∧ (t.results.map PageResult.url).Nodup ∧
        ∀ r ∈ t.results, r.url ∈ t.visited) ?_ fuel (initState cfg seeds)
      (by simp [initState])
    rintro t ⟨hnv, hnr, hrv⟩ _
    obtain ⟨newv, newq, hvis, hqv, hlen, hfresh, hres, hnewq⟩ := crawlStep_spec cfg w t
    have hnewv : newv = [] ∨ ∃ u, newv = [u] ∧ u ∉ t.visited := by
      rcases newv with _ | ⟨u, us⟩
      · exact Or.inl rfl
      · refine Or.inr ⟨u, ?_, ?_⟩
        · have : us = [] := by
            have := hlen
            simp only [List.length_cons] at this
            exact List.eq_nil_of_length_eq_zero (by omega)
          rw [this]
        · exact contains_false_iff.mp (hfresh u (by simp))
    refine ⟨?_, ?_, ?_⟩
    · rw [hvis]
      rcases hnewv with rfl | ⟨u, rfl, hu⟩
      · simpa using hnv
      · simpa using ⟨hu, hnv⟩
    · rcases hres with h | ⟨page, h, hpu⟩
      · rw [h]; exact hnr
      · rw [h]
        simp only [List.map_append, List.map_cons, List.map_nil]
        rw [List.nodup_append]
        refine ⟨hnr, List.nodup_singleton _, ?_⟩
        intro x hx hx1
        simp only [List.mem_singleton] at hx1
        subst hx1
        obtain ⟨r, hr, hru⟩ := List.mem_map.mp hx
        have hxv : page.url ∈ t.visited := hru ▸ hrv r hr
        rcases hnewv with rfl | ⟨u, rfl, hu⟩
        · exact absurd hpu (List.not_mem_nil _)
        · simp only [List.mem_singleton] at hpu
          exact hu (hpu ▸ hxv)
    · intro r hr
      rw [hvis]
      rcases hres with h | ⟨page, h, hpu⟩
      · rw [h] at hr
        exact List.mem_append_right _ (hrv r hr)
      · rw [h] at hr
        rcases List.mem_append.mp hr with h2 | h2
        · exact List.mem_append_right _ (hrv r h2)
        · simp only [List.mem_singleton] at h2
          subst h2
          exact List.mem_append_left _ hpu
  · intro t
    obtain ⟨newv, newq, hvis, hqv, _, _, _, hnewq⟩ := crawlStep_spec cfg w t
    exact ⟨newq, hqv, fun p hp => contains_false_iff.mp (hnewq p hp).1⟩

/-- Closed instance of the dedup theorem. -/
theorem crawl_dedup_witness :
    (runCrawl { base_url := "http://e.com" : Config} ⟨fun _ => .ok 200 {}⟩ 3
        (initState { base_url := "http://e.com" : Config} [])).state.visited.Nodup :=
  (crawl_dedup { base_url := "http://e.com" : Config} ⟨fun _ => .ok 200 {}⟩ [] 3).1.1

/-- C5: depth bound — an entry whose depth exceeds `maxDepth` is
discarded when dequeued, with no fetch and no other state change; link
discovery enqueues only entries at depth parent+1 with the parent's
depth strictly below `maxDepth`; consequently, from the initialized
state every queued entry ever has depth ≤ `maxDepth`, so no entry at
depth `maxDepth + 1` is ever dequeued for fetching. -/
theorem crawl_depth_bound (cfg : Config) (w : World) :
    (∀ (s : CrawlState) url depth rest, s.to_visit = (url, depth) :: rest →
       depth > cfg.max_depth → crawlStep cfg w s = .ok { s with to_visit := rest }) ∧
    (∀ (s : CrawlState) p, p ∈ (crawlStep cfg w s).state.to_visit →
       p ∈ s.to_visit ∨
         ∃ u d r, s.to_visit = (u, d) :: r ∧ p.2 = d + 1 ∧ d < cfg.max_depth) ∧
    (∀ seeds fuel p,
       p ∈ (runCrawl cfg w fuel (initState cfg seeds)).state.to_visit →
       p.2 ≤ cfg.max_depth) := by
  refine ⟨?_, ?_, ?_⟩
  · intro s url depth rest hq hdd
    exact crawlStep_skip_visited_or_depth cfg w s url depth rest hq (Or.inr hdd)
  · intro s p hp
    obtain ⟨newv, newq, _, hqv, _, _, _, hnewq⟩ := crawlStep_spec cfg w s
    rw [hqv] at hp
    rcases List.mem_append.mp hp with h | h
    · exact Or.inl (List.mem_of_mem_tail h)
    · obtain ⟨_, u, d, r, h1, h2, h3⟩ := hnewq p h
      exact Or.inr ⟨u, d, r, h1, h2, h3⟩
  · intro seeds fuel p hp
    refine runCrawl_inv cfg w (fun t => ∀ q ∈ t.to_visit, q.2 ≤ cfg.max_depth) ?_
      fuel (initState cfg seeds) ?_ p hp
    · intro t ht _ q hq2
      obtain ⟨newv, newq, _, hqv, _, _, _, hnewq⟩ := crawlStep_spec cfg w t
      rw [hqv] at hq2
      rcases List.mem_append.mp hq2 with h | h
      · exact ht q (List.mem_of_mem_tail h)
      · obtain ⟨_, u, d, r, h1, h2, h3⟩ := hnewq q h
        omega
    · intro q hq2
      simp only [initState, List.mem_append, List.mem_map] at hq2
      rcases hq2 with ⟨u, _, rfl⟩ | h
      · simp
      · simp only [List.mem_singleton] at h
        subst h
        simp

/-- Closed instance of the depth-bound theorem. -/
theorem crawl_depth_bound_witness :
    crawlStep { base_url := "http://e.com", max_depth := 1 : Config} ⟨fun _ => .ok 200 {}⟩
        { to_visit := [("http://e.com/deep", 2)] } =
      .ok { to_visit := [] } :=
  (crawl_depth_bound { base_url := "http://e.com", max_depth := 1 : Config}
      ⟨fun _ => .ok 200 {}⟩).1
    { to_visit := [("http://e.com/deep", 2)] } "http://e.com/deep" 2 [] rfl (by decide)

/-- C1 counterexample: the claim "the FetchError record is appended
to both `results` and `errors`, so every entry of `errors` also appears
in `results`" fails on the code.  Crawling `http://e.com` against a
network where every fetch raises `boom` leaves one record in `errors`
and none in `results`. -/
theorem fetch_error_errors_subset_results_cex :
    ¬ (∀ e ∈ (runCrawl { base_url := "http://e.com" : Config} ⟨fun _ => .err "boom"⟩ 5
          (initState { base_url := "http://e.com" : Config} [])).state.errors,
        e ∈ (runCrawl { base_url := "http://e.com" : Config} ⟨fun _ => .err "boom"⟩ 5
          (initState { base_url := "http://e.com" : Config} [])).state.results) := by
  decide

/-- C1 amended: when a fetch raises a transport error, a
`PageResult` with `status=0`, the error message and all other fields at
their empty defaults is appended to `errors` only — `results`, the
progress log and the autosave log are unchanged, the frontier only
loses the popped entry (no link extraction), and the loop continues. -/
theorem fetch_error_recorded_in_errors_only (cfg : Config) (w : World) (s : CrawlState)
    (url : String) (depth : Nat) (rest : List (String × Nat)) (msg : String)
    (hq : s.to_visit = (url, depth) :: rest)
    (hv : s.visited.contains url = false) (hd : depth ≤ cfg.max_depth)
    (ha : allowed cfg url = true) (hf : w.fetch url = .err msg) :
    crawlStep cfg w s = .ok
      { s with
          to_visit := rest
          visited := url :: s.visited
          errors := s.errors ++ [{ url := url, status := 0, error := msg }] } :=
  crawlStep_fetch_err cfg w s url depth rest msg hq hv hd ha hf

/-- Closed instance of the amended C1 theorem. -/
theorem fetch_error_recorded_in_errors_only_witness :
    crawlStep { base_url := "http://e.com" : Config} ⟨fun _ => .err "boom"⟩
        (initState { base_url := "http://e.com" : Config} []) = .ok
      { initState { base_url := "http://e.com" : Config} [] with
          to_visit := []
          visited := ["http://e.com"]
          errors := [{ url := "http://e.com", status := 0, error := "boom" }] } :=
  fetch_error_recorded_in_errors_only { base_url := "http://e.com" : Config}
    ⟨fun _ => .err "boom"⟩ (initState { base_url := "http://e.com" : Config} [])
    "http://e.com" 0 [] "boom" rfl (by decide) (by decide) (by decide) rfl

/-- C2 counterexample: the claim "the progress callback is invoked
after every completed fetch attempt, both on success and on transport
error" fails on the code.  With a registered callback and a network
where the only fetch raises, the attempt completes (one record in
`errors`) yet no progress call is made. -/
theorem progress_not_called_on_error_cex :
    (runCrawl { base_url := "http://e.com", has_progress_callback := true : Config}
        ⟨fun _ => .err "boom"⟩ 5
        (initState { base_url := "http://e.com", has_progress_callback := true : Config}
          [])).state.errors.length = 1 ∧
    (runCrawl { base_url := "http://e.com", has_progress_callback := true : Config}
        ⟨fun _ => .err "boom"⟩ 5
        (initState { base_url := "http://e.com", has_progress_callback := true : Config}
          [])).state.progressEvents = [] := by
  decide

/-- C2 amended: with a registered progress observer, the callback
is invoked with `(len(results), maxPages)` after every fetch attempt
that returns a response (any status — the attempt that appends a
`PageResult` to `results`), and it is not invoked when the attempt ends
in a transport error. -/
theorem progress_reported_on_response_only (cfg : Config) (w : World) (s : CrawlState)
    (url : String) (depth : Nat) (rest : List (String × Nat))
    (hq : s.to_visit = (url, depth) :: rest)
    (hv : s.visited.contains url = false) (hd : depth ≤ cfg.max_depth)
    (ha : allowed cfg url = true) (hcb : cfg.has_progress_callback = true) :
    (∀ status text, w.fetch url = .ok status text →
       (crawlStep cfg w s).state.progressEvents =
         s.progressEvents ++ [(s.results.length + 1, cfg.max_pages)] ∧
       (crawlStep cfg w s).state.results.length = s.results.length + 1) ∧
    (∀ msg, w.fetch url = .err msg →
       (crawlStep cfg w s).state.progressEvents = s.progressEvents) := by
  constructor
  · intro status text hf
    rw [crawlStep_fetch_ok cfg w s url depth rest status text hq hv hd ha hf]
    constructor
    · rw [recordPage_progressEvents, if_pos hcb]
    · rw [recordPage_results]
      simp
  · intro msg hf
    rw [crawlStep_fetch_err cfg w s url depth rest msg hq hv hd ha hf]
    rfl

/-- Closed instance of the amended C2 theorem. -/
theorem progress_reported_on_response_only_witness :
    (crawlStep { base_url := "http://e.com", has_progress_callback := true : Config}
        ⟨fun _ => .ok 200 {}⟩
        (initState { base_url := "http://e.com", has_progress_callback := true : Config}
          [])).state.progressEvents = [(1, 100)] := by
  have h :=
    (progress_reported_on_response_only
        { base_url := "http://e.com", has_progress_callback := true : Config}
        ⟨fun _ => .ok 200 {}⟩
        (initState { base_url := "http://e.com", has_progress_callback := true : Config} [])
        "http://e.com" 0 [] rfl (by decide) (by decide) (by decide) rfl).1 200 {} rfl
  simpa [initState] using h.1

/-- C6 counterexample: the claim "keeps only URLs with an HTTP or
HTTPS scheme" fails on the code.  The filter is the string test
`href.startswith('http')`, which also admits any other scheme whose
name begins with `http`: an anchor to `httpz://evil.example/a` is
returned although its scheme is `httpz`, neither `http` nor `https`. -/
theorem extract_links_scheme_filter_cex :
    extract_links { base_url := "http://evil.example" : Config}
        { anchors := ["httpz://evil.example/a"] } "http://evil.example" =
      ["httpz://evil.example/a"] ∧
    pyScheme "httpz://evil.example/a" = some "httpz" ∧
    "httpz" ≠ "http" ∧ "httpz" ≠ "https" := by
  refine ⟨by decide, by decide, by decide, by decide⟩

/-- C6 amended: `extract_links` returns, in document order and
without removing duplicates, each anchor href resolved against the base
URL, keeping exactly those resolved URLs whose string starts with the
prefix `"http"` (which admits HTTP and HTTPS but also any other scheme
beginning with those letters) and for which `allowed` returns true. -/
theorem extract_links_characterization (cfg : Config) (soup : Doc) (base_url : String) :
    extract_links cfg soup base_url =
      (soup.anchors.map (urljoin base_url)).filter
        (fun href => strStartsWith href "http" && allowed cfg href) := by
  unfold extract_links
  suffices h : ∀ (l : List String) (acc : List String),
      l.foldl
        (fun links a =>
          let href := urljoin base_url a
          if strStartsWith href "http" && allowed cfg href then links ++ [href]
          else links)
        acc =
        acc ++ (l.map (urljoin base_url)).filter
          (fun href => strStartsWith href "http" && allowed cfg href) by
    simpa using h soup.anchors []
  intro l
  induction l with
  | nil => intro acc; simp
  | cons a t ih =>
    intro acc
    simp only [List.foldl_cons, List.map_cons, List.filter_cons]
    by_cases hcond :
        (strStartsWith (urljoin base_url a) "http" && allowed cfg (urljoin base_url a)) = true
    · rw [if_pos hcond, ih, hcond]
      simp
    · rw [if_neg hcond]
      have hfalse : (strStartsWith (urljoin base_url a) "http" &&
          allowed cfg (urljoin base_url a)) = false := by simpa using hcond
      rw [ih, hfalse]
      simp

theorem robotsParseLine_unrecognized (l : String)
    (h : robotsLineUnrecognized l = true) :
    robotsParseLine ⟨0, emptyEntry, emptyRules⟩ l = ⟨0, emptyEntry, emptyRules⟩ := by
  by_cases hl : l = ""
  · simp [robotsParseLine, hl]
  · rcases hsp : splitFirst ':' (pyStrip (stripComment l)).data with _ | ⟨rawKey, rawValue⟩
    · simp [robotsParseLine, hl, String.toList, hsp]
    · have h5 : robotsLineKey l = some (lowerString (pyStrip (String.mk rawKey))) := by
        simp [robotsLineKey, String.toList, hsp]
      have hb : robotsLineUnrecognized l = true := h
      unfold robotsLineUnrecognized at hb
      rw [h5] at hb
      simp only [Bool.not_eq_true'] at hb
      simp only [robotsParseLine, if_neg hl, String.toList, hsp]
      split_ifs <;> first | rfl | simp_all

theorem parseRobots_all_unrecognized (lines : List String)
    (h : ∀ l ∈ lines, robotsLineUnrecognized l = true) :
    parseRobots lines = emptyRules := by
  unfold parseRobots
  have hfold : lines.foldl robotsParseLine ⟨0, emptyEntry, emptyRules⟩ =
      ⟨0, emptyEntry, emptyRules⟩ := by
    induction lines with
    | nil => rfl
    | cons a t ih =>
      rw [List.foldl_cons, robotsParseLine_unrecognized a (h a (by simp))]
      exact ih (fun l hl => h l (by simp [hl]))
  rw [hfold]
  rfl

/-- C7: every failing robots.txt load falls back to an allow-all
policy and never aborts initialization (the model of `load_robots` is a
total function of the fetch outcome): a raised transport error or a
non-200 response yields the empty ruleset, a 200 response whose lines
contain no recognizable robots directive parses to the empty ruleset,
`can_fetch` on the empty ruleset accepts every URL for every agent, and
hence `allowed` accepts every URL inside the host scope. -/
theorem robots_failure_allow_all :
    (∀ msg, load_robots (.err msg) = emptyRules) ∧
    (∀ status lines, status ≠ 200 → load_robots (.ok status lines) = emptyRules) ∧
    (∀ lines, (∀ l ∈ lines, robotsLineUnrecognized l = true) →
       load_robots (.ok 200 lines) = emptyRules) ∧
    (∀ agent url, can_fetch emptyRules agent url = true) ∧
    (∀ (cfg : Config) url, cfg.robots = emptyRules → hostScopeOk cfg url = true →
       allowed cfg url = true) := by
  refine ⟨?_, ?_, ?_, ?_, ?_⟩
  · intro msg
    rfl
  · intro status lines hs
    simp only [load_robots, if_neg hs]
    rfl
  · intro lines h
    simp only [load_robots, if_pos rfl]
    exact parseRobots_all_unrecognized lines h
  · intro agent url
    rfl
  · intro cfg url hr hh
    simp only [allowed, hh, hr, Bool.true_and]
    rfl

/-- Closed instance of the robots-fallback theorem: a connection error,
a 404, and a garbage body all yield the allow-all ruleset, and the
crawl's base page stays fetchable. -/
theorem robots_failure_allow_all_witness :
    load_robots (.err "Cannot connect to host") = emptyRules ∧
    load_robots (.ok 404 ["User-agent: *", "Disallow: /"]) = emptyRules ∧
    load_robots (.ok 200 ["<html>", "garbage!!"]) = emptyRules ∧
    can_fetch emptyRules "*" "http://e.com/private" = true ∧
    allowed { base_url := "http://e.com" : Config} "http://e.com/private" = true := by
  refine ⟨robots_failure_allow_all.1 "Cannot connect to host",
    robots_failure_allow_all.2.1 404 ["User-agent: *", "Disallow: /"] (by decide),
    robots_failure_allow_all.2.2.1 ["<html>", "garbage!!"] (by decide),
    robots_failure_allow_all.2.2.2.1 "*" "http://e.com/private",
    robots_failure_allow_all.2.2.2.2 { base_url := "http://e.com" : Config}
      "http://e.com/private" rfl (by decide)⟩

/-- C8: the analyzer never raises — `parse_page` is a total
function of the fetched URL, status and the BeautifulSoup view of the
body (BeautifulSoup's `html.parser` produces a best-effort `Doc` for
every input string, malformed or partial included) — and each of
`title`, `description`, `h1`, `canonical` and `metaRobots` is extracted
independently (it depends only on its own element of the document),
with an absent element or attribute yielding the empty string. -/
theorem parse_page_fields (url : String) (status : Nat) (soup : Doc) :
    ((parse_page url status soup).url = url ∧
     (parse_page url status soup).status = status ∧
     (parse_page url status soup).error = "") ∧
    ((soup.title = none ∨ soup.title = some none) →
       (parse_page url status soup).title = "") ∧
    (∀ s, soup.title = some (some s) → (parse_page url status soup).title = pyStrip s) ∧
    ((soup.descContent = none ∨ soup.descContent = some none) →
       (parse_page url status soup).description = "") ∧
    (∀ s, soup.descContent = some (some s) →
       (parse_page url status soup).description = pyStrip s) ∧
    (soup.h1Text = none → (parse_page url status soup).h1 = "") ∧
    (∀ s, soup.h1Text = some s → (parse_page url status soup).h1 = s) ∧
    ((soup.canonicalHref = none ∨ soup.canonicalHref = some none) →
       (parse_page url status soup).canonical = "") ∧
    (∀ s, soup.canonicalHref = some (some s) →
       (parse_page url status soup).canonical = pyStrip s) ∧
    ((soup.robotsContent = none ∨ soup.robotsContent = some none) →
       (parse_page url status soup).meta_robots = "") ∧
    (∀ s, soup.robotsContent = some (some s) →
       (parse_page url status soup).meta_robots = pyStrip s) ∧
    (∀ d : Doc, d.title = soup.title →
       (parse_page url status d).title = (parse_page url status soup).title) ∧
    (∀ d : Doc, d.descContent = soup.descContent →
       (parse_page url status d).description = (parse_page url status soup).description) ∧
    (∀ d : Doc, d.h1Text = soup.h1Text →
       (parse_page url status d).h1 = (parse_page url status soup).h1) ∧
    (∀ d : Doc, d.canonicalHref = soup.canonicalHref →
       (parse_page url status d).canonical = (parse_page url status soup).canonical) ∧
    (∀ d : Doc, d.robotsContent = soup.robotsContent →
       (parse_page url status d).meta_robots = (parse_page url status soup).meta_robots) := by
  refine ⟨⟨rfl, rfl, rfl⟩, ?_, ?_, ?_, ?_, ?_, ?_, ?_, ?_, ?_, ?_, ?_, ?_, ?_, ?_, ?_⟩
  · rintro (h | h) <;> simp [parse_page, h]
  · intro t ht
    simp only [parse_page, ht]
    split_ifs with h1
    · subst h1; rfl
    · rfl
  · rintro (h | h) <;> simp [parse_page, h]
  · intro t ht
    simp only [parse_page, ht]
    split_ifs with h1
    · subst h1; rfl
    · rfl
  · intro h; simp [parse_page, h]
  · intro t ht; simp [parse_page, ht]
  · rintro (h | h) <;> simp [parse_page, h]
  · intro t ht
    simp only [parse_page, ht]
    split_ifs with h1
    · subst h1; rfl
    · rfl
  · rintro (h | h) <;> simp [parse_page, h]
  · intro t ht
    simp only [parse_page, ht]
    split_ifs with h1
    · subst h1; rfl
    · rfl
  · intro d hd; simp only [parse_page]; rw [hd]
  · intro d hd; simp only [parse_page]; rw [hd]
  · intro d hd; simp only [parse_page]; rw [hd]
  · intro d hd; simp only [parse_page]; rw [hd]
  · intro d hd; simp only [parse_page]; rw [hd]

/-- Closed instance of the analyzer theorem: the empty document yields
empty fields, a present title is extracted stripped. -/
theorem parse_page_fields_witness :
    (parse_page "http://e.com" 200 {}).title = "" ∧
    (parse_page "http://e.com" 200 { title := some (some " Home ") }).title = "Home" := by
  refine ⟨(parse_page_fields "http://e.com" 200 {}).2.1 (Or.inl rfl), ?_⟩
  have h := (parse_page_fields "http://e.com" 200
    { title := some (some " Home ") }).2.2.1 " Home " rfl
  rw [h]
  decide

/-- C9: when a URL's parsed hostname is empty or absent
(`urlparse(url).hostname` falsy), the host-scope restriction in
`allowed` is bypassed even with `includeSubdomains = false`: the
host-scope test passes vacuously and `allowed` reduces to the robots
consultation alone, so such a URL can be admitted to fetching despite
not matching the base host. -/
theorem allowed_hostless_bypasses_scope (cfg : Config) (url : String)
    (h : pyHostname url = none) :
    hostScopeOk cfg url = true ∧
    allowed cfg url = can_fetch cfg.robots "*" url := by
  have hh : hostScopeOk cfg url = true := by
    unfold hostScopeOk
    split_ifs
    · rfl
    · rw [h]
  exact ⟨hh, by rw [allowed, hh, Bool.true_and]⟩

/-- Closed instance of the hostless-URL theorem: a `mailto:` URL has no
hostname and is accepted by `allowed` under the default host scoping
and empty robots rules, although it does not match the base host. -/
theorem allowed_hostless_bypasses_scope_witness :
    pyHostname "mailto:user@elsewhere.example" = none ∧
    allowed { base_url := "http://e.com" : Config} "mailto:user@elsewhere.example" = true := by
  refine ⟨by decide, ?_⟩
  rw [(allowed_hostless_bypasses_scope { base_url := "http://e.com" : Config}
      "mailto:user@elsewhere.example" (by decide)).2]
  decide

theorem crawlStep_no_crash (cfg : Config) (w : World) (s : CrawlState)
    (h0 : cfg.autosave_interval ≠ 0) : ∃ s', crawlStep cfg w s = .ok s' := by
  rcases hq : s.to_visit with _ | ⟨⟨url, depth⟩, rest⟩
  · exact ⟨s, crawlStep_nil cfg w s hq⟩
  · by_cases hv : s.visited.contains url = true
    · exact ⟨_, crawlStep_skip_visited_or_depth cfg w s url depth rest hq (Or.inl hv)⟩
    · have hv' : s.visited.contains url = false := by simpa using hv
      by_cases hdd : depth > cfg.max_depth
      · exact ⟨_, crawlStep_skip_visited_or_depth cfg w s url depth rest hq (Or.inr hdd)⟩
      · have hd : depth ≤ cfg.max_depth := by omega
        by_cases ha : allowed cfg url = true
        · rcases hf : w.fetch url with msg | ⟨status, text⟩
          · exact ⟨_, crawlStep_fetch_err cfg w s url depth rest msg hq hv' hd ha hf⟩
          · obtain ⟨s', hs'⟩ := recordPage_ok_nonzero cfg url depth status text
              { s with to_visit := rest, visited := url :: s.visited } h0
            refine ⟨s', ?_⟩
            rw [crawlStep_fetch_ok cfg w s url depth rest status text hq hv' hd ha hf, hs']
        · have ha' : allowed cfg url = false := by simpa using ha
          exact ⟨_, crawlStep_skip_disallowed cfg w s url depth rest hq hv' hd ha'⟩

/-- C10: with `autosaveInterval = 0`, the autosave-threshold check
`len(results) % autosave_interval` divides by zero, so the loop raises
`ZeroDivisionError` on the first fetch attempt that appends a
`PageResult` to `results` (the record is appended before the crash);
with any non-zero interval no loop iteration ever raises, so the
exception-free crawl loop holds exactly under the precondition
`autosaveInterval > 0` (the interval is a non-negative count). -/
theorem autosave_interval_zero_crashes (cfg : Config) (w : World) :
    (∀ (s : CrawlState) url depth rest status text,
       s.to_visit = (url, depth) :: rest →
       s.visited.contains url = false →
       depth ≤ cfg.max_depth →
       allowed cfg url = true →
       w.fetch url = .ok status text →
       cfg.autosave_interval = 0 →
       ∃ s', crawlStep cfg w s = .crash s' zeroDivMsg ∧
         s'.results = s.results ++ [parse_page url status text]) ∧
    (cfg.autosave_interval ≠ 0 →
       ∀ fuel (s : CrawlState), ∃ s', runCrawl cfg w fuel s = .ok s') := by
  constructor
  · intro s url depth rest status text hq hv hd ha hf h0
    rw [crawlStep_fetch_ok cfg w s url depth rest status text hq hv hd ha hf]
    obtain ⟨s', hcr, hres⟩ := recordPage_crash_zero cfg url depth status text
      { s with to_visit := rest, visited := url :: s.visited } h0
    exact ⟨s', hcr, by simpa using hres⟩
  · intro h0 fuel
    induction fuel with
    | zero => intro s; exact ⟨s, rfl⟩
    | succ n ih =>
      intro s
      rw [runCrawl]
      by_cases hg : crawlGuard cfg s = true
      · rw [if_pos hg]
        obtain ⟨s1, hs1⟩ := crawlStep_no_crash cfg w s h0
        rw [hs1]
        exact ih s1
      · rw [if_neg hg]
        exact ⟨s, rfl⟩

/-- Closed instance of the autosave-zero theorem: the very first
successful fetch crashes the loop with the zero-division message, the
record having been appended. -/
theorem autosave_interval_zero_crashes_witness :
    ∃ s', crawlStep { base_url := "http://e.com", autosave_interval := 0 : Config}
        ⟨fun _ => .ok 200 {}⟩
        (initState { base_url := "http://e.com", autosave_interval := 0 : Config} []) =
          .crash s' zeroDivMsg ∧
      s'.results = [parse_page "http://e.com" 200 {}] := by
  obtain ⟨s', h1, h2⟩ :=
    (autosave_interval_zero_crashes
        { base_url := "http://e.com", autosave_interval := 0 : Config}
        ⟨fun _ => .ok 200 {}⟩).1
      (initState { base_url := "http://e.com", autosave_interval := 0 : Config} [])
      "http://e.com" 0 [] 200 {} rfl (by decide) (by decide) (by decide) rfl rfl
  exact ⟨s', h1, by simpa [initState] using h2⟩

end SEOParser
